import Mathlib

/-!
Verification development for the Datastrix ingestion-and-retrieval pipeline
(`vector_generator.py`, `search_context.py`, `delete_chunks.py`, `main.py`).

The Python code is shallowly embedded: the Qdrant store is a list of points,
the external collaborators (PDF text extraction, text splitter, embedding
service, LLM expansion) are oracle parameters, and exceptions are explicit
`Option`/error values.
-/

namespace Datastrix

/-- Embedding vectors; their numeric content is irrelevant to every property
proved here, so they are opaque lists. -/
abbrev Vec := List Int

/-- A Qdrant payload dictionary. Python payloads are string-keyed dicts read
with `.get`, which yields `None` for a missing key, hence every field is an
`Option`. Ingestion writes all fields; retrieval reads them defensively. -/
structure PDict where
  file_id : Option String := none
  user_id : Option String := none
  user_name : Option String := none
  collection_name : Option String := none
  original_filename : Option String := none
  timestamp : Option String := none
  chunk_index : Option Nat := none
  text : Option String := none
deriving DecidableEq, Repr

/-- A stored Qdrant point: `models.PointStruct(id, vector, payload)`. -/
structure Point where
  id : String
  vector : Vec
  payload : PDict
deriving DecidableEq, Repr

/-- The collection's contents, as a list of points. -/
abbrev Store := List Point

/-- `EMBEDDING_DIM = 1024` (vector_generator.py line 13). -/
def EMBEDDING_DIM : Nat := 1024

/-- `TOP_K_RESULTS = 3` (search_context.py line 9). -/
def TOP_K_RESULTS : Nat := 3

/-- `SUMMARY_CHUNK_LIMIT = 30` (search_context.py line 10). -/
def SUMMARY_CHUNK_LIMIT : Nat := 30

/-! ## Ingestion pipeline (`VectorGenerator.process_document`) -/

/-- The duplicate-check filter of `process_document` (lines 137-142): a point
matches when its payload has the given `file_id` AND `user_id`. -/
def matchesPair (file_id user_id : String) (p : Point) : Bool :=
  p.payload.file_id == some file_id && p.payload.user_id == some user_id

/-- `qdrant.scroll` with a `file_id`/`user_id` filter and a `limit`
(lines 135-144): the matching points, truncated to the page limit. -/
def scrollPair (store : Store) (file_id user_id : String) (limit : Nat) : List Point :=
  (store.filter (matchesPair file_id user_id)).take limit

/-- The external collaborators of one `process_document` call.
`extract` is `_extract_text_from_file` (`none` = the `ValueError` raise),
`splitText` is `text_splitter.split_text`, `embedDoc` gives the embedding of
one chunk (`embedder.embed_documents` maps it over the chunk list), and
`freshId` supplies the `uuid.uuid4()` string for each point. -/
structure IngestEnv where
  extract : List Nat → String → Option String
  splitText : String → List String
  embedDoc : String → Vec
  freshId : Nat → String

/-- The side-effecting collaborator calls a `process_document` run performs,
in order. -/
inductive PipelineEvent
  | extractText
  | embedDocs
  | upsertPoints
deriving DecidableEq, Repr

/-- The terminal outcome of one ingestion run (instrumentation of the model:
the Python function communicates these only through log lines). -/
inductive IngestOutcome
  | skippedDuplicate
  | skippedEmpty
  | ingested (n : Nat)
  | extractionError
deriving DecidableEq, Repr

/-- The observable result of one `process_document` call: the store afterwards,
the trace of collaborator calls, the terminal outcome, and `raised` — `some e`
when the Python call raises, `none` when it returns (its return value is
always `None`). -/
structure IngestResult where
  store : Store
  events : List PipelineEvent
  outcome : IngestOutcome
  raised : Option String
deriving DecidableEq, Repr

/-- The emptiness test `not text_content or not text_content.strip()`
(line 150): the text is empty or all-whitespace. -/
def isBlank (s : String) : Bool :=
  s.data.all Char.isWhitespace

/-- `points_to_insert` (lines 161-177): one point per chunk, enumerated, with
`chunk_index = i` and `text` = the chunk; `vector = embeddings[i]` where
`embeddings = embed_documents(chunks)` embeds each chunk in order. -/
def buildPoints (env : IngestEnv)
    (file_id user_id user_name collection_name original_filename timestamp : String)
    (chunks : List String) : List Point :=
  chunks.enum.map (fun p =>
    { id := env.freshId p.1
      vector := env.embedDoc p.2
      payload :=
        { file_id := some file_id
          user_id := some user_id
          user_name := some user_name
          collection_name := some collection_name
          original_filename := some original_filename
          timestamp := some timestamp
          chunk_index := some p.1
          text := some p.2 } })

/-- `VectorGenerator.process_document` (lines 130-191).
Steps: duplicate check by filtered scroll with limit 1; extraction (a raise
propagates, re-raised by the outer handler); the empty-text check
(`not text_content or not text_content.strip()`); chunking with the
zero-chunks check; embedding; building the points; batch upsert (modelled as
appending to the store). The Python function returns `None` on every
non-raising path. -/
def process_document (env : IngestEnv)
    (user_id user_name collection_name original_filename timestamp : String)
    (file_content_bytes : List Nat) (file_id : String) (store : Store) : IngestResult :=
  if scrollPair store file_id user_id 1 ≠ [] then
    { store := store, events := [], outcome := .skippedDuplicate, raised := none }
  else
    match env.extract file_content_bytes original_filename with
    | none =>
      { store := store, events := [.extractText], outcome := .extractionError,
        raised := some ("Could not process PDF content for " ++ original_filename ++ ".") }
    | some text_content =>
      if isBlank text_content then
        { store := store, events := [.extractText], outcome := .skippedEmpty, raised := none }
      else
        if env.splitText text_content = [] then
          { store := store, events := [.extractText], outcome := .skippedEmpty, raised := none }
        else
          { store := store ++ buildPoints env file_id user_id user_name collection_name
              original_filename timestamp (env.splitText text_content),
            events := [.extractText, .embedDocs, .upsertPoints],
            outcome := .ingested (buildPoints env file_id user_id user_name collection_name
              original_filename timestamp (env.splitText text_content)).length,
            raised := none }

/-! ## Collection manager (`VectorGenerator._get_or_create_collection`) -/

/-- The store-level state `_get_or_create_collection` acts on: whether the
collection exists (and with what vector size), and which payload indexes
exist. -/
structure QState where
  collectionDim : Option Nat
  userIdIndexed : Bool
  fileIdIndexed : Bool
deriving DecidableEq, Repr

/-- `VectorGenerator._get_or_create_collection` (lines 51-114), with explicit
fuel bounding the recursion depth of the line-88 self-call (`none` = the fuel
ran out, i.e. the recursion did not terminate within that depth).
Absent collection: `recreate_collection` with `EMBEDDING_DIM` then the two
payload-index creations. Present with matching dimension: idempotent
re-creation of the two indexes. Present with a mismatched dimension:
`delete_collection` then the recursive retry. -/
def getOrCreateCollection : Nat → QState → Option QState
  | 0, _ => none
  | fuel + 1, s =>
    match s.collectionDim with
    | none =>
      some { collectionDim := some EMBEDDING_DIM, userIdIndexed := true, fileIdIndexed := true }
    | some dim =>
      if dim = EMBEDDING_DIM then
        some { s with userIdIndexed := true, fileIdIndexed := true }
      else
        getOrCreateCollection fuel { s with collectionDim := none }

/-! ## Retrieval (`ContextRetriever`) -/

/-- An apostrophe character, for building the keyword strings. -/
def apos : String := String.singleton (Char.ofNat 39)

/-- `SUMMARIZATION_KEYWORDS` (search_context.py lines 12-16). -/
def SUMMARIZATION_KEYWORDS : List String :=
  ["summarize", "summary", "overview", "gist", "main points",
   "key points", "in short", "in brief", "what is this about",
   "what" ++ apos ++ "s this about",
   "tell me about this file", "give me a summary", "can you summarize"]

/-- Substring containment on character lists: some suffix of `hay` starts
with `pat`. Models Python's `pat in hay` on strings. -/
def containsSubList : List Char → List Char → Bool
  | hay, pat =>
    match hay with
    | [] => pat.isEmpty
    | c :: t => pat.isPrefixOf (c :: t) || containsSubList t pat

/-- `any(keyword in query.lower() for keyword in SUMMARIZATION_KEYWORDS)`
(line 56), on the character lists of the lower-cased query. -/
def isSummaryRequest (query : String) : Bool :=
  SUMMARIZATION_KEYWORDS.any (fun k => containsSubList (query.data.map Char.toLower) k.data)

/-- The retrieval collaborators of one `ContextRetriever.search` call.
`clientPresent` is `self.db_client` being non-None; `decoded` is the combined
result of `db_client.invoke`, fence stripping and `json.loads` on one
expansion request (`none` = the invoke raised or decoding failed);
`searchOracle q` is `embedder.embed_query(q)` followed by `qdrant.search`
under the `user_id`/`file_ids` filter, returning the ranked hit payloads
before the `limit` truncation (`.error` = either call raised); `scrollOk`
is whether the summarization-mode `qdrant.scroll` call succeeds. -/
structure RetrievalEnv where
  clientPresent : Bool
  decoded : Option (List String)
  searchOracle : String → Except String (List PDict)
  scrollOk : Bool

/-- `ContextRetriever._get_expanded_queries` (lines 33-51): no client, or a
failed invoke/decode, falls back to `[query]`; otherwise the decoded array,
with the original query appended when absent. -/
def getExpandedQueries (env : RetrievalEnv) (query : String) : List String :=
  if env.clientPresent = false then [query]
  else
    match env.decoded with
    | none => [query]
    | some expanded_queries =>
      if query ∈ expanded_queries then expanded_queries
      else expanded_queries ++ [query]

/-- The semantic-mode fan-out loop (lines 79-87): for each expanded query, in
order, embed it and search with `limit=TOP_K_RESULTS`, extending `all_hits`;
a raise anywhere aborts the whole loop. -/
def collectHits (env : RetrievalEnv) : List String → Except String (List PDict)
  | [] => .ok []
  | eq :: rest =>
    match env.searchOracle eq with
    | .error e => .error e
    | .ok search_results =>
      match collectHits env rest with
      | .error e => .error e
      | .ok tailHits => .ok (search_results.take TOP_K_RESULTS ++ tailHits)

/-- The composite key `(hit.payload.get('file_id'), hit.payload.get('chunk_index'))`
of line 91, present only when both components are. -/
def keyOf (p : PDict) : Option (String × Nat) :=
  match p.file_id, p.chunk_index with
  | some f, some i => some (f, i)
  | _, _ => none

/-- Truthiness of `hit.payload.get("text")` (line 92): present and non-empty. -/
def textOk (p : PDict) : Bool :=
  match p.text with
  | some t => !(t == "")
  | none => false

/-- The dict stored per unique chunk (line 93): only `text` and
`original_filename`. -/
def chunkDict (p : PDict) : PDict :=
  { text := p.text, original_filename := p.original_filename }

/-- One iteration of the dedup loop (lines 90-93) over the insertion-ordered
`unique_chunks` dict, modelled as an append-ordered association list: skip a
hit whose key is incomplete, already present, or whose text is not truthy;
otherwise insert at the end. -/
def dedupStep (acc : List ((String × Nat) × PDict)) (hit : PDict) :
    List ((String × Nat) × PDict) :=
  match keyOf hit with
  | none => acc
  | some k =>
    if k ∈ acc.map Prod.fst then acc
    else if textOk hit then acc ++ [(k, chunkDict hit)]
    else acc

/-- The `unique_chunks` dict after the dedup loop, keys in insertion order. -/
def uniqueChunks (hits : List PDict) : List ((String × Nat) × PDict) :=
  hits.foldl dedupStep []

/-- `retrieved_chunks = list(unique_chunks.values())` (line 95). -/
def dedupHits (hits : List PDict) : List PDict :=
  (uniqueChunks hits).map Prod.snd

/-- The `query_filter` of lines 58-63: payload `user_id` equals the caller's
and payload `file_id` is one of `file_ids`. -/
def matchesQueryFilter (user_id : String) (file_ids : List String) (p : PDict) : Bool :=
  p.user_id == some user_id &&
    (match p.file_id with
     | some f => file_ids.contains f
     | none => false)

/-- The sort key `k.get('chunk_index', 0)` of line 76. -/
def chunkIndexKey (p : PDict) : Nat :=
  p.chunk_index.getD 0

/-- The body of the `try` block of `ContextRetriever.search` (lines 68-97):
summarization mode scrolls a page of at most `SUMMARY_CHUNK_LIMIT` matching
payloads and sorts it by `chunkIndexKey`; semantic mode expands the query,
fans out the searches and deduplicates. `.error` is an uncaught raise inside
the block. -/
def searchBody (env : RetrievalEnv) (store : List PDict) (query user_id : String)
    (file_ids : List String) : Except String (List PDict) :=
  if isSummaryRequest query then
    if env.scrollOk = false then .error "scroll failed"
    else
      let scroll_results :=
        (store.filter (matchesQueryFilter user_id file_ids)).take SUMMARY_CHUNK_LIMIT
      if scroll_results = [] then .ok []
      else .ok (scroll_results.mergeSort
        (fun a b => decide (chunkIndexKey a ≤ chunkIndexKey b)))
  else
    match collectHits env (getExpandedQueries env query) with
    | .error e => .error e
    | .ok all_hits => .ok (dedupHits all_hits)

/-- `ContextRetriever.search` (lines 53-101): empty `file_ids` returns `[]`
immediately; any raise inside the body is caught and becomes `[]`. -/
def search (env : RetrievalEnv) (store : List PDict) (query user_id : String)
    (file_ids : List String) : List PDict :=
  if file_ids = [] then []
  else
    match searchBody env store query user_id file_ids with
    | .ok r => r
    | .error _ => []

/-! ## Helper lemmas: ingestion -/

theorem take_one_ne_nil {l : List Point} (h : l ≠ []) : l.take 1 ≠ [] := by
  cases l with
  | nil => exact absurd rfl h
  | cons a t => simp

theorem scrollPair_ne_nil_of_mem {store : Store} {fid uid : String} {p : Point}
    (hp : p ∈ store) (hm : matchesPair fid uid p = true) :
    scrollPair store fid uid 1 ≠ [] := by
  unfold scrollPair
  apply take_one_ne_nil
  intro hnil
  have hmem : p ∈ store.filter (matchesPair fid uid) := List.mem_filter.mpr ⟨hp, hm⟩
  rw [hnil] at hmem
  exact absurd hmem (List.not_mem_nil p)

theorem buildPoints_matches {env : IngestEnv}
    {fid uid un cn ofn ts : String} {chunks : List String} {q : Point}
    (hq : q ∈ buildPoints env fid uid un cn ofn ts chunks) :
    matchesPair fid uid q = true := by
  unfold buildPoints at hq
  rcases List.mem_map.mp hq with ⟨p, _, rfl⟩
  simp [matchesPair]

theorem buildPoints_ne_nil {env : IngestEnv}
    {fid uid un cn ofn ts : String} {chunks : List String} (h : chunks ≠ []) :
    buildPoints env fid uid un cn ofn ts chunks ≠ [] := by
  unfold buildPoints
  simpa using h

theorem buildPoints_map_chunk_index (env : IngestEnv)
    (fid uid un cn ofn ts : String) (chunks : List String) :
    (buildPoints env fid uid un cn ofn ts chunks).map (fun q => q.payload.chunk_index) =
      (List.range chunks.length).map some := by
  unfold buildPoints
  rw [List.map_map]
  conv_rhs => rw [← List.enum_map_fst chunks, List.map_map]
  rfl

theorem buildPoints_map_text (env : IngestEnv)
    (fid uid un cn ofn ts : String) (chunks : List String) :
    (buildPoints env fid uid un cn ofn ts chunks).map (fun q => q.payload.text) =
      chunks.map some := by
  unfold buildPoints
  rw [List.map_map]
  conv_rhs => rw [← List.enum_map_snd chunks, List.map_map]
  rfl

/-- Inversion of a successful ingestion run: the extract succeeded with
non-blank text, the chunker produced a non-empty list, `n` is its length, and
the new store is the old one with one built point per chunk appended. -/
theorem process_document_ingested_inv {env : IngestEnv}
    {uid un cn ofn ts : String} {bytes : List Nat} {fid : String} {store : Store} {n : Nat}
    (h : (process_document env uid un cn ofn ts bytes fid store).outcome = .ingested n) :
    ∃ text_content,
      env.extract bytes ofn = some text_content ∧
      isBlank text_content = false ∧
      env.splitText text_content ≠ [] ∧
      n = (env.splitText text_content).length ∧
      (process_document env uid un cn ofn ts bytes fid store).store =
        store ++ buildPoints env fid uid un cn ofn ts (env.splitText text_content) := by
  unfold process_document at h ⊢
  split at h
  · simp at h
  · rename_i hdup
    split at h
    · simp at h
    · rename_i text_content heq
      refine ⟨text_content, heq, ?_⟩
      split at h
      · simp at h
      · split at h
        · simp at h
        · rename_i hblank hchunks
          simp only [IngestOutcome.ingested.injEq] at h
          refine ⟨by simpa using hblank, hchunks, ?_, ?_⟩
          · rw [← h]
            simp [buildPoints]
          · simp [heq, hblank, hchunks, not_not.mp hdup]

/-- A no-op duplicate run: with a matching point already stored, the call
leaves the store untouched, performs no collaborator call, and skips. -/
theorem process_document_duplicate {env : IngestEnv}
    {uid un cn ofn ts : String} {bytes : List Nat} {fid : String} {store : Store}
    (h : ∃ p ∈ store, matchesPair fid uid p = true) :
    (process_document env uid un cn ofn ts bytes fid store).store = store ∧
    (process_document env uid un cn ofn ts bytes fid store).events = [] ∧
    (process_document env uid un cn ofn ts bytes fid store).outcome = .skippedDuplicate := by
  rcases h with ⟨p, hp, hm⟩
  have hne := scrollPair_ne_nil_of_mem hp hm
  unfold process_document
  rw [if_pos hne]
  exact ⟨rfl, rfl, rfl⟩

/-- C1: an ingestion call whose `(file_id, user_id)` pair already has a stored
point terminates at the duplicate check: the store is unchanged and no
extraction, embedding or upsert event occurs; consequently, after a successful
ingestion, a second call for the same pair (with any collaborators, metadata
and bytes) is a pure no-op, leaving exactly the first ingestion's points. -/
theorem ingest_duplicate_is_noop
    (env env2 : IngestEnv)
    (uid un cn ofn ts : String) (bytes : List Nat) (fid : String)
    (un2 cn2 ofn2 ts2 : String) (bytes2 : List Nat)
    (store : Store) :
    ((∃ p ∈ store, matchesPair fid uid p = true) →
      (process_document env uid un cn ofn ts bytes fid store).store = store ∧
      (process_document env uid un cn ofn ts bytes fid store).events = [] ∧
      (process_document env uid un cn ofn ts bytes fid store).outcome = .skippedDuplicate) ∧
    (∀ n, (process_document env uid un cn ofn ts bytes fid store).outcome = .ingested n →
      (process_document env2 uid un2 cn2 ofn2 ts2 bytes2 fid
          (process_document env uid un cn ofn ts bytes fid store).store).store =
        (process_document env uid un cn ofn ts bytes fid store).store ∧
      (process_document env2 uid un2 cn2 ofn2 ts2 bytes2 fid
          (process_document env uid un cn ofn ts bytes fid store).store).events = [] ∧
      (process_document env2 uid un2 cn2 ofn2 ts2 bytes2 fid
          (process_document env uid un cn ofn ts bytes fid store).store).outcome =
        .skippedDuplicate) := by
  constructor
  · exact fun h => process_document_duplicate h
  · intro n h
    rcases process_document_ingested_inv h with ⟨t, _, _, hchunks, _, hstore⟩
    apply process_document_duplicate
    rcases List.exists_mem_of_ne_nil _
      (@buildPoints_ne_nil env fid uid un cn ofn ts _ hchunks) with ⟨q, hq⟩
    exact ⟨q, by rw [hstore]; exact List.mem_append_right _ hq, buildPoints_matches hq⟩

/-- A concrete ingestion environment: extraction yields `"x"`, the chunker
returns the whole text as one chunk. -/
def envA : IngestEnv :=
  { extract := fun _ _ => some "x", splitText := fun t => [t],
    embedDoc := fun _ => [], freshId := fun _ => "p" }

/-- The store after one successful concrete ingestion with `envA`. -/
def storeA : Store := (process_document envA "u" "n" "c" "f" "t" [] "fid" []).store

/-- Witness for `ingest_duplicate_is_noop` at a concrete duplicate store. -/
theorem ingest_duplicate_is_noop_witness :
    (∃ p ∈ storeA, matchesPair "fid" "u" p = true) ∧
    ((process_document envA "u" "n" "c" "f" "t" [] "fid" storeA).store = storeA ∧
     (process_document envA "u" "n" "c" "f" "t" [] "fid" storeA).events = [] ∧
     (process_document envA "u" "n" "c" "f" "t" [] "fid" storeA).outcome = .skippedDuplicate) :=
  ⟨by decide,
   (ingest_duplicate_is_noop envA envA "u" "n" "c" "f" "t" [] "fid" "n" "c" "f" "t" []
     storeA).1 (by decide)⟩

/-- C2: a successful ingestion appends exactly one point per chunk, in chunk
order, with `chunk_index` values `0..n-1` and `text` equal to the chunk at
that index, where `n` is the number of chunks the chunker returned. -/
theorem ingest_chunk_indices_exact
    (env : IngestEnv) (uid un cn ofn ts : String) (bytes : List Nat) (fid : String)
    (store : Store) (n : Nat)
    (h : (process_document env uid un cn ofn ts bytes fid store).outcome = .ingested n) :
    ∃ text_content,
      env.extract bytes ofn = some text_content ∧
      n = (env.splitText text_content).length ∧
      (process_document env uid un cn ofn ts bytes fid store).store =
        store ++ buildPoints env fid uid un cn ofn ts (env.splitText text_content) ∧
      ((process_document env uid un cn ofn ts bytes fid store).store.drop store.length).map
          (fun q => q.payload.chunk_index) = (List.range n).map some ∧
      ((process_document env uid un cn ofn ts bytes fid store).store.drop store.length).map
          (fun q => q.payload.text) = (env.splitText text_content).map some := by
  rcases process_document_ingested_inv h with ⟨t, hext, _, _, hn, hstore⟩
  refine ⟨t, hext, hn, hstore, ?_, ?_⟩
  · rw [hstore, List.drop_left, hn, buildPoints_map_chunk_index]
  · rw [hstore, List.drop_left, buildPoints_map_text]

/-- Witness for `ingest_chunk_indices_exact` on a concrete one-chunk run. -/
theorem ingest_chunk_indices_exact_witness :
    ((process_document envA "u" "n" "c" "f" "t" [] "fid" []).outcome = .ingested 1) ∧
    (∃ text_content,
      envA.extract [] "f" = some text_content ∧
      1 = (envA.splitText text_content).length ∧
      (process_document envA "u" "n" "c" "f" "t" [] "fid" []).store =
        [] ++ buildPoints envA "fid" "u" "n" "c" "f" "t" (envA.splitText text_content) ∧
      ((process_document envA "u" "n" "c" "f" "t" [] "fid" []).store.drop
          (List.length ([] : Store))).map (fun q => q.payload.chunk_index) =
        (List.range 1).map some ∧
      ((process_document envA "u" "n" "c" "f" "t" [] "fid" []).store.drop
          (List.length ([] : Store))).map (fun q => q.payload.text) =
        (envA.splitText text_content).map some) :=
  ⟨by decide,
   ingest_chunk_indices_exact envA "u" "n" "c" "f" "t" [] "fid" [] 1 (by decide)⟩

/-- C3 counterexample: two non-raising calls with different terminal outcomes
(a successful ingestion and a duplicate skip) both return `None` to the
caller, so the returned value does not identify which outcome occurred. -/
theorem ingest_outcomes_not_distinguishable :
    (process_document envA "u" "n" "c" "f" "t" [] "fid" []).outcome = .ingested 1 ∧
    (process_document envA "u" "n" "c" "f" "t" [] "fid" storeA).outcome = .skippedDuplicate ∧
    (process_document envA "u" "n" "c" "f" "t" [] "fid" []).raised = none ∧
    (process_document envA "u" "n" "c" "f" "t" [] "fid" storeA).raised = none := by
  decide

/-- C3 amended: on every non-raising path — `SkippedDuplicate`, `SkippedEmpty`
and `Ingested` alike — `process_document` returns the same value (`None`), so
the three non-error outcomes are not distinguishable through the returned
value; they are reported only in the logs. -/
theorem ingest_return_is_constant_none
    (env : IngestEnv) (uid un cn ofn ts : String) (bytes : List Nat) (fid : String)
    (store : Store)
    (h : (process_document env uid un cn ofn ts bytes fid store).outcome ≠ .extractionError) :
    (process_document env uid un cn ofn ts bytes fid store).raised = none := by
  unfold process_document at h ⊢
  by_cases hdup : scrollPair store fid uid 1 ≠ []
  · rw [if_pos hdup]
  · rw [if_neg hdup] at h ⊢
    split
    · rename_i heq
      rw [heq] at h
      exact absurd rfl h
    · rename_i t heq
      by_cases hb : isBlank t
      · rw [if_pos hb]
      · rw [if_neg hb]
        by_cases hc : env.splitText t = []
        · rw [if_pos hc]
        · rw [if_neg hc]

/-- Witness for `ingest_return_is_constant_none` on a concrete run. -/
theorem ingest_return_is_constant_none_witness :
    ((process_document envA "u" "n" "c" "f" "t" [] "fid" []).outcome ≠ .extractionError) ∧
    (process_document envA "u" "n" "c" "f" "t" [] "fid" []).raised = none :=
  ⟨by decide, ingest_return_is_constant_none envA "u" "n" "c" "f" "t" [] "fid" [] (by decide)⟩

/-! ## Collection manager theorems -/

/-- C5: when the existing collection's vector size differs from
`EMBEDDING_DIM`, the ensure step deletes the collection and re-runs itself
exactly once on the now-absent collection (first conjunct), and that single
retry recreates the collection with the expected dimensionality and both
payload indexes, terminating for every recursion budget of at least two
(second conjunct). -/
theorem schema_drift_single_retry
    (s : QState) (dim : Nat) (fuel : Nat)
    (h1 : s.collectionDim = some dim) (h2 : dim ≠ EMBEDDING_DIM) :
    getOrCreateCollection (fuel + 1) s =
      getOrCreateCollection fuel { s with collectionDim := none } ∧
    getOrCreateCollection (fuel + 2) s =
      some { collectionDim := some EMBEDDING_DIM,
             userIdIndexed := true, fileIdIndexed := true } := by
  constructor
  · simp [getOrCreateCollection, h1, h2]
  · simp [getOrCreateCollection, h1, h2]

/-- Witness for `schema_drift_single_retry` on a concrete 768-dimensional
drifted collection with no spare fuel. -/
theorem schema_drift_single_retry_witness :
    (QState.mk (some 768) false false).collectionDim = some 768 ∧ 768 ≠ EMBEDDING_DIM ∧
    (getOrCreateCollection 1 (QState.mk (some 768) false false) =
      getOrCreateCollection 0 { QState.mk (some 768) false false with collectionDim := none } ∧
     getOrCreateCollection 2 (QState.mk (some 768) false false) =
      some { collectionDim := some EMBEDDING_DIM,
             userIdIndexed := true, fileIdIndexed := true }) :=
  ⟨rfl, by decide,
   schema_drift_single_retry (QState.mk (some 768) false false) 768 0 rfl (by decide)⟩

/-! ## Query-expansion theorems -/

/-- A concrete expansion environment whose decoded model array has six
entries, one repeated, and does not contain the original query. -/
def renvDup : RetrievalEnv :=
  { clientPresent := true, decoded := some ["a", "a", "b", "c", "d", "e"],
    searchOracle := fun _ => .ok [], scrollOk := true }

/-- C4 counterexample: with a six-element decoded array not containing the
original query `"q"`, `_get_expanded_queries` returns seven entries including
a repeat — the code enforces neither the 1-to-5 length bound nor pairwise
distinctness. -/
theorem expand_contract_violated :
    ¬ (1 ≤ (getExpandedQueries renvDup "q").length ∧
       (getExpandedQueries renvDup "q").length ≤ 5 ∧
       (getExpandedQueries renvDup "q").Nodup ∧
       "q" ∈ getExpandedQueries renvDup "q") := by
  decide

/-- C4 amended: the expansion always returns a non-empty sequence containing
the original query, but the 1-to-5 bound and pairwise distinctness are not
enforced: when decoding succeeds the result is the decoded array itself (plus
the original query when absent), of whatever length and multiplicity the
model produced. -/
theorem expand_always_contains_original (env : RetrievalEnv) (query : String) :
    getExpandedQueries env query ≠ [] ∧ query ∈ getExpandedQueries env query := by
  unfold getExpandedQueries
  by_cases hc : env.clientPresent = false
  · simp [hc]
  · cases hdec : env.decoded with
    | none => simp [hc, hdec]
    | some qs =>
      by_cases hq : query ∈ qs
      · have hqs := List.ne_nil_of_mem hq
        simp [hc, hdec, hq, hqs]
      · simp [hc, hdec, hq]

/-! ## Retrieval theorems -/

/-- C8: when the body of the retrieval `try` block raises — the scroll, an
embedding call or a store search — `ContextRetriever.search` returns the
empty list instead of propagating the exception. -/
theorem retrieval_failure_yields_empty
    (env : RetrievalEnv) (store : List PDict) (query user_id : String)
    (file_ids : List String) (e : String)
    (h : searchBody env store query user_id file_ids = .error e) :
    search env store query user_id file_ids = [] := by
  unfold search
  by_cases hf : file_ids = []
  · rw [if_pos hf]
  · rw [if_neg hf, h]

/-- A retrieval environment whose embedding/search collaborator raises. -/
def renvDown : RetrievalEnv :=
  { clientPresent := false, decoded := none,
    searchOracle := fun _ => .error "down", scrollOk := false }

/-- Witness for `retrieval_failure_yields_empty` on a concrete failing
semantic-mode call. -/
theorem retrieval_failure_yields_empty_witness :
    searchBody renvDown [] "q" "u" ["f"] = .error "down" ∧
    search renvDown [] "q" "u" ["f"] = [] :=
  ⟨rfl, retrieval_failure_yields_empty renvDown [] "q" "u" ["f"] "down" rfl⟩

/-- C9: with the LLM collaborator absent, or its response failing to decode,
query expansion returns exactly the singleton of the original query, and
semantic-mode retrieval proceeds with that single query: the result is the
deduplication of the top-`TOP_K_RESULTS` hits for the original query alone
(empty when that single search raises). -/
theorem expansion_fallback_single_query
    (env : RetrievalEnv) (store : List PDict) (query user_id : String)
    (file_ids : List String)
    (h : env.clientPresent = false ∨ env.decoded = none) :
    getExpandedQueries env query = [query] ∧
    (isSummaryRequest query = false → file_ids ≠ [] →
      search env store query user_id file_ids =
        match env.searchOracle query with
        | .ok rs => dedupHits (rs.take TOP_K_RESULTS)
        | .error _ => []) := by
  have hexp : getExpandedQueries env query = [query] := by
    unfold getExpandedQueries
    rcases h with hc | hd
    · rw [if_pos hc]
    · by_cases hc : env.clientPresent = false
      · rw [if_pos hc]
      · rw [if_neg hc, hd]
  refine ⟨hexp, fun hsem hne => ?_⟩
  cases hso : env.searchOracle query with
  | error e => simp [search, searchBody, hsem, hne, hexp, collectHits, hso]
  | ok rs => simp [search, searchBody, hsem, hne, hexp, collectHits, hso]

/-- A retrieval environment with the LLM collaborator absent and a working
store returning one hit. -/
def renvFB : RetrievalEnv :=
  { clientPresent := false, decoded := none,
    searchOracle := fun _ =>
      .ok [{ file_id := some "f", chunk_index := some 0, text := some "hello" }],
    scrollOk := true }

/-- Witness for `expansion_fallback_single_query` on a concrete client-absent
semantic call. -/
theorem expansion_fallback_single_query_witness :
    (renvFB.clientPresent = false ∨ renvFB.decoded = none) ∧
    isSummaryRequest "q" = false ∧ (["f"] : List String) ≠ [] ∧
    getExpandedQueries renvFB "q" = ["q"] ∧
    search renvFB [] "q" "u" ["f"] =
      (match renvFB.searchOracle "q" with
       | .ok rs => dedupHits (rs.take TOP_K_RESULTS)
       | .error _ => []) :=
  ⟨Or.inl rfl, by decide, by decide,
   (expansion_fallback_single_query renvFB [] "q" "u" ["f"] (Or.inl rfl)).1,
   (expansion_fallback_single_query renvFB [] "q" "u" ["f"] (Or.inl rfl)).2
     (by decide) (by decide)⟩

/-- C7: a non-failing summarization-mode retrieval fetches at most
`SUMMARY_CHUNK_LIMIT` points matching the `user_id`/`file_ids` filter and
returns exactly that page (as a permutation) sorted so that the
`chunk_index` sort keys (missing indexes defaulting to 0) are
non-decreasing. -/
theorem summary_mode_capped_and_sorted
    (env : RetrievalEnv) (store : List PDict) (query user_id : String)
    (file_ids : List String)
    (hsum : isSummaryRequest query = true) (hne : file_ids ≠ [])
    (hscroll : env.scrollOk = true) :
    (search env store query user_id file_ids).length ≤ SUMMARY_CHUNK_LIMIT ∧
    (search env store query user_id file_ids).Pairwise
      (fun a b => chunkIndexKey a ≤ chunkIndexKey b) ∧
    (search env store query user_id file_ids).Perm
      ((store.filter (matchesQueryFilter user_id file_ids)).take SUMMARY_CHUNK_LIMIT) := by
  by_cases hl : ((store.filter (matchesQueryFilter user_id file_ids)).take
      SUMMARY_CHUNK_LIMIT) = []
  · have hbody : search env store query user_id file_ids = [] := by
      simp [search, searchBody, hsum, hscroll, hne, hl]
    rw [hbody, hl]
    exact ⟨by simp, List.Pairwise.nil, List.Perm.refl []⟩
  · have hl' := hl
    simp only [List.take_eq_nil_iff, List.filter_eq_nil_iff] at hl'
    have hbody : search env store query user_id file_ids =
        ((store.filter (matchesQueryFilter user_id file_ids)).take
          SUMMARY_CHUNK_LIMIT).mergeSort
          (fun a b => decide (chunkIndexKey a ≤ chunkIndexKey b)) := by
      simp [search, searchBody, hsum, hscroll, hne, hl, hl']
    rw [hbody]
    refine ⟨?_, ?_, List.mergeSort_perm _ _⟩
    · rw [List.length_mergeSort]
      exact List.length_take_le _ _
    · have hs := @List.sorted_mergeSort PDict
        (fun a b : PDict => decide (chunkIndexKey a ≤ chunkIndexKey b))
        (fun a b c hab hbc => by
          simp only [decide_eq_true_eq] at *
          omega)
        (fun a b => by
          simp only [Bool.or_eq_true, decide_eq_true_eq]
          omega)
        ((store.filter (matchesQueryFilter user_id file_ids)).take SUMMARY_CHUNK_LIMIT)
      exact hs.imp (fun h => by simpa using h)

/-- Two stored payloads (chunks 1 and 0 of one file) in scrambled order. -/
def storeB : List PDict :=
  [{ file_id := some "f", user_id := some "u", chunk_index := some 1, text := some "b" },
   { file_id := some "f", user_id := some "u", chunk_index := some 0, text := some "a" }]

/-- Witness for `summary_mode_capped_and_sorted` on a concrete two-chunk
summarization request. -/
theorem summary_mode_capped_and_sorted_witness :
    isSummaryRequest "summary" = true ∧ (["f"] : List String) ≠ [] ∧
    renvFB.scrollOk = true ∧
    ((search renvFB storeB "summary" "u" ["f"]).length ≤ SUMMARY_CHUNK_LIMIT ∧
     (search renvFB storeB "summary" "u" ["f"]).Pairwise
       (fun a b => chunkIndexKey a ≤ chunkIndexKey b) ∧
     (search renvFB storeB "summary" "u" ["f"]).Perm
       ((storeB.filter (matchesQueryFilter "u" ["f"])).take SUMMARY_CHUNK_LIMIT)) :=
  ⟨by decide, by decide, rfl,
   summary_mode_capped_and_sorted renvFB storeB "summary" "u" ["f"]
     (by decide) (by decide) rfl⟩

/-! ## Helper lemmas: semantic-mode deduplication -/

theorem dedup_foldl_keys_nodup (hits : List PDict)
    (acc : List ((String × Nat) × PDict)) (h : (acc.map Prod.fst).Nodup) :
    ((hits.foldl dedupStep acc).map Prod.fst).Nodup := by
  induction hits generalizing acc with
  | nil => simpa using h
  | cons hit rest ih =>
    rw [List.foldl_cons]
    apply ih
    cases hk : keyOf hit with
    | none => simpa [dedupStep, hk] using h
    | some k =>
      by_cases hc : k ∈ acc.map Prod.fst
      · simpa [dedupStep, hk, hc] using h
      · by_cases ht : textOk hit
        · have hstep : dedupStep acc hit = acc ++ [(k, chunkDict hit)] := by
            simp [dedupStep, hk, hc, ht]
          rw [hstep, List.map_append]
          exact h.append (List.nodup_singleton k) (by simpa using hc)
        · simpa [dedupStep, hk, hc, ht] using h

theorem mem_dedup_foldl (hits : List PDict) (acc : List ((String × Nat) × PDict))
    (k : String × Nat) (c : PDict)
    (hmem : (k, c) ∈ hits.foldl dedupStep acc) :
    (k, c) ∈ acc ∨
      (k ∉ acc.map Prod.fst ∧
        ∃ p, hits.find? (fun q => decide (keyOf q = some k) && textOk q) = some p ∧
          c = chunkDict p ∧ keyOf p = some k) := by
  induction hits generalizing acc with
  | nil => exact Or.inl (by simpa using hmem)
  | cons hit rest ih =>
    rw [List.foldl_cons] at hmem
    have H := ih (dedupStep acc hit) hmem
    cases hk : keyOf hit with
    | none =>
      have hstep : dedupStep acc hit = acc := by simp [dedupStep, hk]
      rw [hstep] at H
      rw [List.find?_cons_of_neg _ (by simp [hk])]
      exact H
    | some kh =>
      by_cases hc : kh ∈ acc.map Prod.fst
      · have hstep : dedupStep acc hit = acc := by simp [dedupStep, hk, hc]
        rw [hstep] at H
        by_cases hkk : kh = k
        · subst hkk
          rcases H with H | ⟨hnot, _⟩
          · exact Or.inl H
          · exact absurd hc hnot
        · rw [List.find?_cons_of_neg _ (by simp [hk, hkk])]
          exact H
      · by_cases ht : textOk hit
        · have hstep : dedupStep acc hit = acc ++ [(kh, chunkDict hit)] := by
            simp [dedupStep, hk, hc, ht]
          rw [hstep] at H
          rcases H with H | ⟨hnot, p, hfind, hcp, hkp⟩
          · rcases List.mem_append.mp H with H | H
            · exact Or.inl H
            · have hpair : k = kh ∧ c = chunkDict hit := by simpa using H
              obtain ⟨rfl, rfl⟩ := hpair
              refine Or.inr ⟨hc, hit, ?_, rfl, hk⟩
              exact List.find?_cons_of_pos _ (by simp [hk, ht])
          · have hknot : k ∉ acc.map Prod.fst ∧ k ≠ kh := by
              simpa [not_or] using hnot
            rw [List.find?_cons_of_neg _ (by simp [hk, Ne.symm hknot.2])]
            exact Or.inr ⟨hknot.1, p, hfind, hcp, hkp⟩
        · have hstep : dedupStep acc hit = acc := by simp [dedupStep, hk, hc, ht]
          rw [hstep] at H
          rw [List.find?_cons_of_neg _ (by simp [ht])]
          exact H

theorem dedup_foldl_length (hits : List PDict) (acc : List ((String × Nat) × PDict)) :
    (hits.foldl dedupStep acc).length ≤ acc.length + hits.length := by
  induction hits generalizing acc with
  | nil => simp
  | cons hit rest ih =>
    rw [List.foldl_cons]
    have hstep : (dedupStep acc hit).length ≤ acc.length + 1 := by
      cases hk : keyOf hit with
      | none => simp [dedupStep, hk]
      | some k =>
        by_cases hc : k ∈ acc.map Prod.fst
        · simp [dedupStep, hk, hc]
        · by_cases ht : textOk hit
          · simp [dedupStep, hk, hc, ht]
          · simp [dedupStep, hk, hc, ht]
    calc (rest.foldl dedupStep (dedupStep acc hit)).length
        ≤ (dedupStep acc hit).length + rest.length := ih _
      _ ≤ acc.length + 1 + rest.length := by omega
      _ = acc.length + (hit :: rest).length := by simp [List.length_cons]; omega

theorem collectHits_length (env : RetrievalEnv) (qs : List String) (hs : List PDict)
    (h : collectHits env qs = .ok hs) : hs.length ≤ TOP_K_RESULTS * qs.length := by
  induction qs generalizing hs with
  | nil =>
    have : hs = [] := by
      simpa [collectHits] using h.symm
    simp [this]
  | cons q rest ih =>
    unfold collectHits at h
    cases hso : env.searchOracle q with
    | error e => rw [hso] at h; exact absurd h (by simp)
    | ok rs =>
      rw [hso] at h
      cases hrest : collectHits env rest with
      | error e => rw [hrest] at h; exact absurd h (by simp)
      | ok th =>
        rw [hrest] at h
        have hh : rs.take TOP_K_RESULTS ++ th = hs := by simpa using h
        have h1 : (rs.take TOP_K_RESULTS).length ≤ TOP_K_RESULTS :=
          List.length_take_le _ _
        have h2 := ih th hrest
        rw [← hh, List.length_append]
        simp only [TOP_K_RESULTS, List.length_cons] at *
        omega

/-- C6: a non-failing semantic-mode retrieval returns exactly the values of
the insertion-ordered `unique_chunks` dict; its `(file_id, chunk_index)` keys
are pairwise distinct, and each returned entry is built from the first hit, in
accumulation order across the fan-out, that carries that key with both
components present and a non-empty text payload (so hits with a missing key
component or empty text are never returned). -/
theorem semantic_dedup_unique_first_wins
    (env : RetrievalEnv) (store : List PDict) (query user_id : String)
    (file_ids : List String) (all_hits : List PDict)
    (hsem : isSummaryRequest query = false) (hne : file_ids ≠ [])
    (hok : collectHits env (getExpandedQueries env query) = .ok all_hits) :
    search env store query user_id file_ids = (uniqueChunks all_hits).map Prod.snd ∧
    ((uniqueChunks all_hits).map Prod.fst).Nodup ∧
    (∀ k c, (k, c) ∈ uniqueChunks all_hits →
      ∃ p, all_hits.find? (fun q => decide (keyOf q = some k) && textOk q) = some p ∧
        c = chunkDict p ∧ keyOf p = some k ∧ textOk p = true) := by
  refine ⟨?_, dedup_foldl_keys_nodup all_hits [] (by simp), ?_⟩
  · simp [search, searchBody, hsem, hne, hok, dedupHits, uniqueChunks]
  · intro k c hmem
    rcases mem_dedup_foldl all_hits [] k c hmem with H | ⟨_, p, hfind, hcp, hkp⟩
    · exact absurd H (List.not_mem_nil _)
    · have hp := List.find?_some hfind
      simp only [Bool.and_eq_true, decide_eq_true_eq] at hp
      exact ⟨p, hfind, hcp, hkp, hp.2⟩

/-- The single hit returned by `renvFB`'s store oracle. -/
def hitB : PDict := { file_id := some "f", chunk_index := some 0, text := some "hello" }

/-- Witness for `semantic_dedup_unique_first_wins` on a concrete one-hit
semantic retrieval. -/
theorem semantic_dedup_unique_first_wins_witness :
    isSummaryRequest "q" = false ∧ (["f"] : List String) ≠ [] ∧
    collectHits renvFB (getExpandedQueries renvFB "q") = .ok [hitB] ∧
    (search renvFB [] "q" "u" ["f"] = (uniqueChunks [hitB]).map Prod.snd ∧
     ((uniqueChunks [hitB]).map Prod.fst).Nodup ∧
     (∀ k c, (k, c) ∈ uniqueChunks [hitB] →
       ∃ p, [hitB].find? (fun q => decide (keyOf q = some k) && textOk q) = some p ∧
         c = chunkDict p ∧ keyOf p = some k ∧ textOk p = true)) :=
  ⟨by decide, by decide, rfl,
   semantic_dedup_unique_first_wins renvFB [] "q" "u" ["f"] [hitB]
     (by decide) (by decide) rfl⟩

/-- C10: a non-failing semantic-mode retrieval returns at most
`TOP_K_RESULTS` (= 3) chunks per expanded query searched: each per-query
search is truncated to the top 3 hits and deduplication only removes
entries. -/
theorem semantic_result_length_bound
    (env : RetrievalEnv) (store : List PDict) (query user_id : String)
    (file_ids : List String) (all_hits : List PDict)
    (hsem : isSummaryRequest query = false)
    (hok : collectHits env (getExpandedQueries env query) = .ok all_hits) :
    (search env store query user_id file_ids).length ≤
      TOP_K_RESULTS * (getExpandedQueries env query).length := by
  by_cases hne : file_ids = []
  · simp [search, hne]
  · have hsearch : search env store query user_id file_ids = dedupHits all_hits := by
      simp [search, searchBody, hsem, hne, hok]
    rw [hsearch]
    have h1 : (dedupHits all_hits).length ≤ all_hits.length := by
      have hlen := dedup_foldl_length all_hits []
      simpa [dedupHits, uniqueChunks] using hlen
    have h2 := collectHits_length env _ all_hits hok
    omega

/-- Witness for `semantic_result_length_bound` on a concrete one-query,
one-hit semantic retrieval. -/
theorem semantic_result_length_bound_witness :
    isSummaryRequest "q" = false ∧
    collectHits renvFB (getExpandedQueries renvFB "q") = .ok [hitB] ∧
    (search renvFB [] "q" "u" ["f"]).length ≤
      TOP_K_RESULTS * (getExpandedQueries renvFB "q").length :=
  ⟨by decide, rfl,
   semantic_result_length_bound renvFB [] "q" "u" ["f"] [hitB] (by decide) rfl⟩

end Datastrix
